import Mathlib

/-!
Verification development for the radish in-memory key-value store.

The Go source is shallowly embedded: pure fragments become Lean functions and
the mutable storage becomes explicit state passing.  Machine integers are
modelled by Int/Nat (no overflow is relevant to the verified properties), Go's
`time.Time` by integer instants with the zero value rendered as `none`, byte
slices by lists of naturals, and Go maps by association lists.  Locks are
concurrency artefacts with no sequential meaning and are dropped.
-/

set_option autoImplicit false

namespace Radish

/-- A byte string (Go []byte), modelled as a list of naturals. -/
abbrev Byt : Type := List Nat

/-- ItemKind discriminates the three payload shapes of an Item
(core/item.go: Bytes, List, Dict). -/
inductive ItemKind
  | bytes
  | list
  | dict
deriving DecidableEq, Repr

/-- Item is the value cell stored under every key (core/item.go): an optional
expiry instant (Go zero time.Time, meaning no TTL, is `none`), the kind tag and
the three payload fields of the Go struct, of which only the one matching the
kind is live. -/
structure Item where
  expireAt : Option Int
  kind : ItemKind
  bytes : Byt
  list : List Byt
  dict : List (String × Byt)
deriving DecidableEq, Repr

/-- NewItemBytes constructs a Bytes item with no TTL. -/
def NewItemBytes (value : Byt) : Item :=
  { expireAt := none, kind := .bytes, bytes := value, list := [], dict := [] }

/-- NewItemList constructs a List item with no TTL. -/
def NewItemList (value : List Byt) : Item :=
  { expireAt := none, kind := .list, bytes := [], list := value, dict := [] }

/-- NewItemDict constructs a Dict item with no TTL. -/
def NewItemDict (value : List (String × Byt)) : Item :=
  { expireAt := none, kind := .dict, bytes := [], list := [], dict := value }

/-- Item.HasTtl: the expiry instant differs from the zero time. -/
def Item.HasTtl (i : Item) : Bool :=
  i.expireAt.isSome

/-- Item.IsExpired: a TTL is set and the expiry instant is strictly before now
(Go `i.expireAt.Before(time.Now())`). -/
def Item.IsExpired (i : Item) (now : Int) : Bool :=
  i.HasTtl &&
    (match i.expireAt with
     | some t => decide (t < now)
     | none => false)

/-- Item.SetTtl sets expireAt to now plus the given number of seconds.  Callers
guarantee seconds > 0 (the Go code treats a non-positive argument as a
programming error).  Time is modelled in whole seconds. -/
def Item.SetTtl (i : Item) (seconds : Int) (now : Int) : Item :=
  { i with expireAt := some (now + seconds) }

/-- Item.RemoveTtl resets the expiry instant to the zero time. -/
def Item.RemoveTtl (i : Item) : Item :=
  { i with expireAt := none }

/-- Item.Ttl: remaining seconds until expiry, clamped to at least 0.  Time is
modelled in whole seconds, abstracting the float rounding of the Go code. -/
def Item.Ttl (i : Item) (now : Int) : Int :=
  max (i.expireAt.getD 0 - now) 0

/-- Err enumerates the error kinds returned by Core operations
(core/core.go: ErrNotFound, ErrNoSuchKey, ErrWrongType, ErrInvalidIndex). -/
inductive Err
  | notFound
  | noSuchKey
  | wrongType
  | invalidIndex
deriving DecidableEq, Repr

/-- Store models the storage as seen through the Core's Storage interface: a
mapping from key to the Item stored there. -/
abbrev Store : Type := String → Option Item

namespace Storage

/-- Storage.Get returns the Item stored under the key, if any. -/
def Get (s : Store) (key : String) : Option Item :=
  s key

/-- Storage.AddOrReplaceOne adds a new Item or replaces the existing one. -/
def AddOrReplaceOne (s : Store) (key : String) (item : Item) : Store :=
  fun k => if k = key then some item else s k

/-- Storage.Del removes the keys one by one and counts those that existed. -/
def Del (s : Store) (keys : List String) : Nat × Store :=
  keys.foldl
    (fun acc key =>
      match acc.2 key with
      | some _ => (acc.1 + 1, fun k => if k = key then none else acc.2 k)
      | none => (acc.1, acc.2))
    (0, s)

end Storage

/-- mapGet is Go map lookup on an association list. -/
def mapGet {α : Type} (m : List (String × α)) (key : String) : Option α :=
  match m with
  | [] => none
  | kv :: rest => if kv.1 = key then some kv.2 else mapGet rest key

/-- mapPut is Go map assignment `m[key] = v`: replace the existing entry or
append a new one. -/
def mapPut {α : Type} (m : List (String × α)) (key : String) (v : α) :
    List (String × α) :=
  match m with
  | [] => [(key, v)]
  | kv :: rest => if kv.1 = key then (key, v) :: rest else kv :: mapPut rest key v

/-- mapDel is Go `delete(m, key)`. -/
def mapDel {α : Type} (m : List (String × α)) (key : String) :
    List (String × α) :=
  match m with
  | [] => []
  | kv :: rest => if kv.1 = key then mapDel rest key else kv :: mapDel rest key

namespace Core

/-- Core.getItem resolves a key: an Item that exists but is expired is treated
as absent without deleting it here (the collector handles removal). -/
def getItem (s : Store) (now : Int) (key : String) : Option Item :=
  match Storage.Get s key with
  | none => none
  | some item => if item.IsExpired now then none else some item

/-- Core.Get returns the Bytes payload (the defensive copy of the Go code is
the identity in a value model), ErrNotFound on a missing key, ErrWrongType on a
non-Bytes item. -/
def Get (s : Store) (now : Int) (key : String) : Except Err Byt × Store :=
  match getItem s now key with
  | none => (.error .notFound, s)
  | some item =>
    if item.kind ≠ .bytes then (.error .wrongType, s)
    else (.ok item.bytes, s)

/-- Core.Set replaces the item as Bytes, discarding any previous TTL. -/
def Set (s : Store) (key : String) (value : Byt) : Store :=
  Storage.AddOrReplaceOne s key (NewItemBytes value)

/-- Core.Del removes the specified keys, ignoring missing ones, and returns the
count actually removed. -/
def Del (s : Store) (keys : List String) : Nat × Store :=
  Storage.Del s keys

/-- Core.SetEx replaces the item as Bytes with a TTL; a non-positive ttl
deletes the record instead. -/
def SetEx (s : Store) (now : Int) (key : String) (seconds : Int) (value : Byt) :
    Store :=
  if seconds ≤ 0 then (Del s [key]).2
  else Storage.AddOrReplaceOne s key ((NewItemBytes value).SetTtl seconds now)

/-- Core.DSet sets a field of the dict at the key, creating the Dict on a
missing key (the deferred AddOrReplaceOne publishes the fresh item); returns 1
for a new field and 0 for an overwrite.  In-place mutation of the shared Item
is modelled as writing the updated Item back under the same key. -/
def DSet (s : Store) (now : Int) (key field : String) (value : Byt) :
    Except Err Nat × Store :=
  match getItem s now key with
  | none =>
    let item := NewItemDict []
    let count := if (mapGet item.dict field).isSome then 0 else 1
    (.ok count,
      Storage.AddOrReplaceOne s key { item with dict := mapPut item.dict field value })
  | some item =>
    if item.kind ≠ .dict then (.error .wrongType, s)
    else
      let count := if (mapGet item.dict field).isSome then 0 else 1
      (.ok count,
        Storage.AddOrReplaceOne s key { item with dict := mapPut item.dict field value })

/-- Core.DGet returns the value at the field of the dict at the key;
ErrNotFound when either the key or the field is missing. -/
def DGet (s : Store) (now : Int) (key field : String) : Except Err Byt × Store :=
  match getItem s now key with
  | none => (.error .notFound, s)
  | some item =>
    if item.kind ≠ .dict then (.error .wrongType, s)
    else
      match mapGet item.dict field with
      | none => (.error .notFound, s)
      | some v => (.ok v, s)

/-- Core.DKeys returns all field names of the dict at the key; a missing key
yields the empty list, not NotFound.  The Go code filters the names with the
glob pattern "*", which matches every string, so the filter keeps all names. -/
def DKeys (s : Store) (now : Int) (key : String) :
    Except Err (List String) × Store :=
  match getItem s now key with
  | none => (.ok [], s)
  | some item =>
    if item.kind ≠ .dict then (.error .wrongType, s)
    else (.ok (item.dict.map Prod.fst), s)

/-- strBytes models Go's []byte(string) conversion. -/
def strBytes (str : String) : Byt :=
  str.toList.map Char.toNat

/-- Core.DGetAll returns every field name followed by its value; a missing key
yields the empty list. -/
def DGetAll (s : Store) (now : Int) (key : String) :
    Except Err (List Byt) × Store :=
  match getItem s now key with
  | none => (.ok [], s)
  | some item =>
    if item.kind ≠ .dict then (.error .wrongType, s)
    else (.ok (item.dict.foldr (fun kv acc => strBytes kv.1 :: kv.2 :: acc) []), s)

/-- Core.DDel removes the specified fields of the dict at the key, counting the
fields that existed; a missing key yields 0. -/
def DDel (s : Store) (now : Int) (key : String) (fields : List String) :
    Except Err Nat × Store :=
  match getItem s now key with
  | none => (.ok 0, s)
  | some item =>
    if item.kind ≠ .dict then (.error .wrongType, s)
    else
      let r := fields.foldl
        (fun (acc : Nat × List (String × Byt)) field =>
          if (mapGet acc.2 field).isSome then (acc.1 + 1, mapDel acc.2 field)
          else acc)
        (0, item.dict)
      (.ok r.1, Storage.AddOrReplaceOne s key { item with dict := r.2 })

/-- Core.LLen returns the length of the list at the key; a missing key yields
0, not NotFound. -/
def LLen (s : Store) (now : Int) (key : String) : Except Err Nat × Store :=
  match getItem s now key with
  | none => (.ok 0, s)
  | some item =>
    if item.kind ≠ .list then (.error .wrongType, s)
    else (.ok item.list.length, s)

/-- Core.LRange returns the inclusive slice from start to stop in external
indexing (0 = head = last slot of the internal slice); negative indices count
from the tail; after normalization start is clamped to 0 and stop to len-1;
start > stop, like a missing key, yields the empty list. -/
def LRange (s : Store) (now : Int) (key : String) (start stop : Int) :
    Except Err (List Byt) × Store :=
  match getItem s now key with
  | none => (.ok [], s)
  | some item =>
    if item.kind ≠ .list then (.error .wrongType, s)
    else
      let list := item.list
      let lLen : Int := list.length
      if lLen = 0 then (.ok [], s)
      else
        let start := if start < 0 then start + lLen else start
        let stop := if stop < 0 then stop + lLen else stop
        let start := max start 0
        let stop := min stop (lLen - 1)
        if start > stop then (.ok [], s)
        else
          let startIndex := lLen - 1 - stop
          let stopIndex := lLen - start
          let slice := (list.drop startIndex.toNat).take (stopIndex - startIndex).toNat
          (.ok slice.reverse, s)

/-- Core.LIndex returns the element at the external index (0 = head = last
slot of the internal slice); negative indices count from the tail; ErrNotFound
on a missing key or an out-of-range index. -/
def LIndex (s : Store) (now : Int) (key : String) (index : Int) :
    Except Err Byt × Store :=
  match getItem s now key with
  | none => (.error .notFound, s)
  | some item =>
    if item.kind ≠ .list then (.error .wrongType, s)
    else
      let lLen : Int := item.list.length
      let index := if index < 0 then index + lLen else index
      if ¬(0 ≤ index ∧ index ≤ lLen - 1) then (.error .notFound, s)
      else (.ok (item.list.getD (lLen - 1 - index).toNat []), s)

/-- Core.LSet sets the list element at the external index; ErrNoSuchKey on a
missing key, ErrInvalidIndex out of range, ErrWrongType on a non-List item. -/
def LSet (s : Store) (now : Int) (key : String) (index : Int) (value : Byt) :
    Except Err Unit × Store :=
  match getItem s now key with
  | none => (.error .noSuchKey, s)
  | some item =>
    if item.kind ≠ .list then (.error .wrongType, s)
    else
      let lLen : Int := item.list.length
      let index := if index < 0 then index + lLen else index
      if ¬(0 ≤ index ∧ index ≤ lLen - 1) then (.error .invalidIndex, s)
      else
        (.ok (),
          Storage.AddOrReplaceOne s key
            { item with list := item.list.set (lLen - 1 - index).toNat value })

/-- Core.LPush appends the values to the internal slice (whose last slot is
the external head), creating the List on a missing key, and returns the new
length. -/
def LPush (s : Store) (now : Int) (key : String) (values : List Byt) :
    Except Err Nat × Store :=
  match getItem s now key with
  | none =>
    let item := NewItemList []
    let list := item.list ++ values
    (.ok list.length, Storage.AddOrReplaceOne s key { item with list := list })
  | some item =>
    if item.kind ≠ .list then (.error .wrongType, s)
    else
      let list := item.list ++ values
      (.ok list.length, Storage.AddOrReplaceOne s key { item with list := list })

/-- Core.LPop removes and returns the external head of the list (the last slot
of the internal slice); ErrNotFound on a missing key or an empty list. -/
def LPop (s : Store) (now : Int) (key : String) : Except Err Byt × Store :=
  match getItem s now key with
  | none => (.error .notFound, s)
  | some item =>
    if item.kind ≠ .list then (.error .wrongType, s)
    else
      match item.list.getLast? with
      | none => (.error .notFound, s)
      | some v =>
        (.ok v, Storage.AddOrReplaceOne s key { item with list := item.list.dropLast })

/-- Core.Ttl returns the remaining seconds; -2 on a missing or expired key, -1
on a key without a TTL.  The Go error result is always nil and is dropped. -/
def Ttl (s : Store) (now : Int) (key : String) : Int × Store :=
  match getItem s now key with
  | none => (-2, s)
  | some item =>
    if ¬ item.HasTtl then (-1, s)
    else (item.Ttl now, s)

/-- Core.Expire sets a timeout on the key, returning 1 on success and 0 on a
missing or expired key; a non-positive timeout deletes the key instead and
still returns 1. -/
def Expire (s : Store) (now : Int) (key : String) (seconds : Int) : Int × Store :=
  match getItem s now key with
  | none => (0, s)
  | some item =>
    if seconds ≤ 0 then (1, (Del s [key]).2)
    else if item.IsExpired now then (0, s)
    else (1, Storage.AddOrReplaceOne s key (item.SetTtl seconds now))

/-- Core.Persist removes an existing timeout, returning 1 if a TTL was removed
and 0 otherwise. -/
def Persist (s : Store) (now : Int) (key : String) : Int × Store :=
  match getItem s now key with
  | none => (0, s)
  | some item =>
    if item.IsExpired now then (0, s)
    else if ¬ item.HasTtl then (0, s)
    else (1, Storage.AddOrReplaceOne s key item.RemoveTtl)

end Core

/-! StorageHash: the sharded concrete storage (core/storagehash.go).  The Go
struct keeps a fixed array of 1024 buckets, each a map from key to an Item
pointer guarded by its own lock; the key-to-bucket function is
`xxhash.ChecksumString64(key) % bucketsCount`.  The hash is an external
library, so the bucket selector is carried as an explicit function parameter
`hb`; locks are dropped.  DelSubmap compares Go pointer identity, so the
stored value type is generic: CAS claims instantiate it with an abstract
handle type, snapshot claims with Item values. -/

def bucketsCount : Nat := 1024

/-- StorageHash is the bucketed storage: an array of bucketsCount Go maps,
each modelled as an association list. -/
structure StorageHash (α : Type) where
  data : Fin bucketsCount → List (String × α)

namespace StorageHash

/-- StorageHash.Get looks the key up in its bucket. -/
def Get {α : Type} (hb : String → Fin bucketsCount) (s : StorageHash α)
    (key : String) : Option α :=
  mapGet (s.data (hb key)) key

/-- StorageHash.empty is a freshly constructed storage with all buckets empty. -/
def empty {α : Type} : StorageHash α :=
  ⟨fun _ => []⟩

/-- delBucketKeys is the inner loop of DelSubmap for one bucket: walk the
bucket's share of the submap keys and delete a key exactly when the stored
handle equals `submap[key]`, counting the deletions. -/
def delBucketKeys {α : Type} [DecidableEq α] (submapGet : String → Option α)
    (acc : Nat × List (String × α)) (ks : List String) :
    Nat × List (String × α) :=
  match ks with
  | [] => acc
  | key :: rest =>
    match mapGet acc.2 key with
    | some existing =>
      if submapGet key = some existing then
        delBucketKeys submapGet (acc.1 + 1, mapDel acc.2 key) rest
      else delBucketKeys submapGet acc rest
    | none => delBucketKeys submapGet acc rest

/-- delSubmapStep handles one bucket of DelSubmap: it runs delBucketKeys on
the bucket's share of the submap keys (grouping by bucket preserves submap
order) and writes the shrunk bucket back. -/
def delSubmapStep {α : Type} [DecidableEq α] (hb : String → Fin bucketsCount)
    (submap : List (String × α)) (acc : Nat × StorageHash α)
    (b : Fin bucketsCount) : Nat × StorageHash α :=
  let r := delBucketKeys (mapGet submap) (0, acc.2.data b)
    ((submap.filter (fun kv => hb kv.1 = b)).map Prod.fst)
  (acc.1 + r.1, ⟨Function.update acc.2.data b r.2⟩)

/-- StorageHash.DelSubmap groups the submap keys by bucket and, per bucket,
removes a key only if the currently stored handle is identical to the supplied
one, returning the count actually deleted. -/
def DelSubmap {α : Type} [DecidableEq α] (hb : String → Fin bucketsCount)
    (submap : List (String × α)) (s : StorageHash α) : Nat × StorageHash α :=
  (List.finRange bucketsCount).foldl (delSubmapStep hb submap) (0, s)

end StorageHash

/-- GobExportItem is one snapshot record: key, expireAt, kind and the three
payload fields (core/item.go gobExportItem together with the Key written by
Persist). -/
structure GobExportItem where
  key : String
  expireAt : Option Int
  kind : ItemKind
  bytes : Byt
  list : List Byt
  dict : List (String × Byt)
deriving DecidableEq, Repr

/-- Item.toGob builds the snapshot record for one stored item. -/
def Item.toGob (key : String) (v : Item) : GobExportItem :=
  { key := key, expireAt := v.expireAt, kind := v.kind,
    bytes := v.bytes, list := v.list, dict := v.dict }

/-- GobExportItem.toItem rebuilds the stored item from a snapshot record. -/
def GobExportItem.toItem (e : GobExportItem) : Item :=
  { expireAt := e.expireAt, kind := e.kind,
    bytes := e.bytes, list := e.list, dict := e.dict }

namespace StorageHash

/-- StorageHash.Persist emits the last sequence id and then one record per
item, walking the buckets in order.  The gob encoder and the writer are
external, so the emitted stream is modelled by its decoded values; writer
failure (SerializationError) is outside the pure model. -/
def Persist (s : StorageHash Item) (lastMessageId : Int) :
    Int × List GobExportItem :=
  (lastMessageId,
    (List.finRange bucketsCount).flatMap
      (fun b => (s.data b).map (fun kv => Item.toGob kv.1 kv.2)))

/-- loadRecords inserts the decoded records one after the other, rebuilding
the bucketed layout by rehashing each key. -/
def loadRecords (hb : String → Fin bucketsCount) (rs : List GobExportItem)
    (s : StorageHash Item) : StorageHash Item :=
  match rs with
  | [] => s
  | e :: rest =>
    loadRecords hb rest
      ⟨Function.update s.data (hb e.key)
        (mapPut (s.data (hb e.key)) e.key e.toItem)⟩

/-- StorageHash.Load restores a snapshot: it is enabled only on an empty
storage (every bucket empty) and otherwise fails; on an empty storage it
returns the decoded sequence id and the storage rebuilt from the records. -/
def Load (hb : String → Fin bucketsCount) (s : StorageHash Item)
    (input : Int × List GobExportItem) :
    Except String (Int × StorageHash Item) :=
  if (List.finRange bucketsCount).all (fun b => (s.data b).isEmpty) then
    .ok (input.1, loadRecords hb input.2 s)
  else .error "StorageHash.Load(): restore enabled only on empty storage"

/-- WF is the storage invariant maintained by every operation: per-bucket keys
are unique (they form a Go map) and every key lives in the bucket its hash
selects. -/
def WF {α : Type} (hb : String → Fin bucketsCount) (s : StorageHash α) : Prop :=
  ∀ b : Fin bucketsCount,
    ((s.data b).map Prod.fst).Nodup ∧ ∀ kv ∈ s.data b, hb kv.1 = b

end StorageHash

/-! Keeper: WAL decoding and replay (controller/keeper.go, controller/gencode.go). -/

/-- Request as framed into the WAL (message package, gencode schema): creation
timestamp, assigned sequence id, uppercase command name, arguments, and the
pipelining flag. -/
structure Request where
  time : Int
  id : Int
  cmd : String
  args : List Byt
  unreliable : Bool
deriving DecidableEq, Repr

/-- Status enumerates the Response statuses of the message package. -/
inductive Status
  | ok
  | error
  | notFound
  | invalidCommand
  | invalidArguments
  | typeMismatch
deriving DecidableEq, Repr

/-- leUint64 decodes the first 8 bytes as a little-endian unsigned integer. -/
def leUint64 (bs : List Nat) : Nat :=
  (bs.take 8).foldr (fun b acc => acc * 256 + b) 0

/-- DecodeResult is the outcome of one GencodeDecoder.Decode call: end of
stream, a decode failure, or a decoded request together with the remaining
input. -/
inductive DecodeResult
  | eof
  | fail
  | ok (req : Request) (rest : List Nat)
deriving DecidableEq, Repr

namespace GencodeDecoder

/-- GencodeDecoder.Decode reads the 8-byte little-endian record length and
then the record body; reaching the end of the input in the middle of either
yields EOF, so a final record truncated by a power failure is skipped; a body
the unmarshaller rejects yields a failure.  The chunked buffered reads of the
Go code collapse to reading from the remaining input; the gencode unmarshaller
is external and passed as a function. -/
def Decode (unmarshal : List Nat → Option Request) (input : List Nat) :
    DecodeResult :=
  if input.length < 8 then .eof
  else
    let size := leUint64 (input.take 8)
    let rest := input.drop 8
    if rest.length < size then .eof
    else
      match unmarshal (rest.take size) with
      | none => .fail
      | some req => .ok req (rest.drop size)

/-- Decode consumes at least the 8 length bytes whenever it yields a record. -/
theorem Decode_ok_length (unmarshal : List Nat → Option Request)
    (input : List Nat) (req : Request) (rest : List Nat)
    (h : Decode unmarshal input = .ok req rest) : rest.length < input.length := by
  unfold Decode at h
  split at h
  · simp at h
  next h8 =>
    dsimp only at h
    split at h
    · simp at h
    next hs =>
      split at h
      · simp_all
      next r hu =>
        cases h
        simp only [List.length_drop]
        omega

end GencodeDecoder

namespace Keeper

/-- Keeper.processWal replays one WAL stream: a record whose id is at most the
current sequence id is skipped (it is already in the storage); otherwise its
TTL argument is normalized (FixRequestTtl), the record is dispatched through
the Processor against the storage state, the sequence id advances on StatusOk,
and any other status aborts recovery; a decode failure aborts too, while EOF
(including a truncated final record) ends the stream normally.  FixRequestTtl,
the Processor and the storage state are abstracted as parameters. -/
def processWal {σ : Type} (unmarshal : List Nat → Option Request)
    (fixTtl : Request → Except String Request)
    (process : σ → Request → Status × σ)
    (input : List Nat) (messageId : Int) (st : σ) : Except String (Int × σ) :=
  match h : GencodeDecoder.Decode unmarshal input with
  | .eof => .ok (messageId, st)
  | .fail => .error "Keeper.processWal(): cannot process WAL"
  | .ok req rest =>
    if req.id ≤ messageId then
      processWal unmarshal fixTtl process rest messageId st
    else
      match fixTtl req with
      | .error e => .error e
      | .ok req2 =>
        let r := process st req2
        if r.1 = Status.ok then
          processWal unmarshal fixTtl process rest req2.id r.2
        else .error "Keeper.processWal(): response status is not StatusOk"
termination_by input.length
decreasing_by
  · exact GencodeDecoder.Decode_ok_length unmarshal input req rest h
  · exact GencodeDecoder.Decode_ok_length unmarshal input req rest h

end Keeper

/-! Shared lemmas about Core.getItem. -/

/-- An item actually returned by getItem is not expired. -/
theorem getItem_some_not_expired (s : Store) (now : Int) (key : String)
    (item : Item) (h : Core.getItem s now key = some item) :
    item.IsExpired now = false := by
  unfold Core.getItem Storage.Get at h
  cases hs : s key with
  | none => rw [hs] at h; cases h
  | some i =>
    rw [hs] at h
    by_cases he : i.IsExpired now
    · simp [he] at h
    · simp [he] at h
      subst h
      simpa using he

/-! Claim theorems. -/

/-- Claim C9, counterexample: an Item whose expiry instant equals now is not
expired by the code (IsExpired uses a strict Before comparison), although the
claim says "expired exactly when expireAt ≤ now". -/
theorem c9_counterexample :
    Item.IsExpired
      { expireAt := some 5, kind := .bytes, bytes := [], list := [], dict := [] }
      5 = false
    ∧ (5 : Int) ≤ 5 := by
  constructor
  · rfl
  · decide

/-- Claim C9, amended: an item with a set expireAt is expired exactly when
expireAt < now (strictly); an unset expireAt means no TTL and the item is never
expired; is-expired holds exactly when the item has a TTL and its expiry
instant satisfies the strict condition. -/
theorem c9_expiry_condition (i : Item) (now t : Int) :
    (i.expireAt = some t → (i.IsExpired now = true ↔ t < now))
    ∧ (i.expireAt = none → (i.HasTtl = false ∧ i.IsExpired now = false))
    ∧ (i.IsExpired now = true ↔
        (i.HasTtl = true ∧ ∃ u : Int, i.expireAt = some u ∧ u < now)) := by
  unfold Item.IsExpired Item.HasTtl
  cases h : i.expireAt with
  | none => simp
  | some u =>
    simp [h]
    rintro rfl
    rfl

/-- Witness for c9_expiry_condition at a concrete expired item. -/
theorem c9_expiry_condition_witness :
    Item.IsExpired
      { expireAt := some 3, kind := .bytes, bytes := [], list := [], dict := [] }
      5 = true :=
  ((c9_expiry_condition
      { expireAt := some 3, kind := .bytes, bytes := [], list := [], dict := [] }
      5 3).1 rfl).mpr (by decide)

/-- Claim C6: SetEx with non-positive seconds deletes the key without storing
the value (the Processor then reports Ok unconditionally, as SetEx returns no
error); Expire returns 0 exactly on a missing or expired key and otherwise 1,
and non-positive seconds delete the key rather than set a timeout. -/
theorem c6_nonpositive_ttl_deletes (s : Store) (now : Int) (key : String)
    (seconds : Int) (value : Byt) :
    (seconds ≤ 0 →
      Core.SetEx s now key seconds value = fun k => if k = key then none else s k)
    ∧ (Core.getItem s now key = none → Core.Expire s now key seconds = (0, s))
    ∧ (∀ item, Core.getItem s now key = some item →
        (Core.Expire s now key seconds).1 = 1)
    ∧ (∀ item, Core.getItem s now key = some item → seconds ≤ 0 →
        Core.Expire s now key seconds
          = (1, fun k => if k = key then none else s k)) := by
  have hdel : (Core.Del s [key]).2 = fun k => if k = key then none else s k := by
    unfold Core.Del Storage.Del
    funext k
    simp only [List.foldl]
    cases hs : s key with
    | none =>
      simp only [hs]
      by_cases hk : k = key
      · subst hk; simp [hs]
      · simp [hk]
    | some i => simp only [hs]
  refine ⟨?_, ?_, ?_, ?_⟩
  · intro hsec
    unfold Core.SetEx
    rw [if_pos hsec, hdel]
  · intro hnone
    unfold Core.Expire
    rw [hnone]
  · intro item hsome
    unfold Core.Expire
    rw [hsome]
    by_cases hsec : seconds ≤ 0
    · simp [hsec]
    · simp [hsec, getItem_some_not_expired s now key item hsome]
  · intro item hsome hsec
    unfold Core.Expire
    rw [hsome]
    simp [hsec, hdel]

/-- Witness for c6_nonpositive_ttl_deletes: SETEX with seconds = 0 removes an
existing key, and EXPIRE with seconds = -1 on an existing key returns 1 and
removes it. -/
theorem c6_nonpositive_ttl_deletes_witness :
    Core.SetEx (fun k => if k = "k" then some (NewItemBytes [1]) else none)
      0 "k" 0 [2] "k" = none
    ∧ Core.Expire (fun k => if k = "k" then some (NewItemBytes [1]) else none)
      0 "k" (-1)
      = (1, fun k => if k = "k" then none
                     else (fun k' => if k' = "k" then some (NewItemBytes [1]) else none) k) := by
  constructor
  · have h := (c6_nonpositive_ttl_deletes
      (fun k => if k = "k" then some (NewItemBytes [1]) else none) 0 "k" 0 [2]).1
      (by decide)
    rw [h]
    simp
  · exact (c6_nonpositive_ttl_deletes
      (fun k => if k = "k" then some (NewItemBytes [1]) else none) 0 "k" (-1) [2]).2.2.2
      (NewItemBytes [1]) (by simp [Core.getItem, Storage.Get, NewItemBytes, Item.IsExpired, Item.HasTtl]) (by decide)

/-- Claim C7: an existing but expired item is treated exactly as an absent key
by every read operation that resolves its key through getItem, and the lookup
never removes the expired item: each read returns its missing-key result and
leaves the storage exactly as it was (so the expired item is still stored). -/
theorem c7_expired_treated_absent_frame (s : Store) (now : Int) (key : String)
    (item : Item) (field : String) (start stop index : Int)
    (hsome : s key = some item) (hexp : item.IsExpired now = true) :
    Core.getItem s now key = none
    ∧ Core.Get s now key = (.error .notFound, s)
    ∧ Core.DGet s now key field = (.error .notFound, s)
    ∧ Core.DKeys s now key = (.ok [], s)
    ∧ Core.DGetAll s now key = (.ok [], s)
    ∧ Core.LLen s now key = (.ok 0, s)
    ∧ Core.LRange s now key start stop = (.ok [], s)
    ∧ Core.LIndex s now key index = (.error .notFound, s)
    ∧ Core.Ttl s now key = (-2, s) := by
  have hget : Core.getItem s now key = none := by
    unfold Core.getItem Storage.Get
    rw [hsome]
    simp [hexp]
  refine ⟨hget, ?_, ?_, ?_, ?_, ?_, ?_, ?_, ?_⟩ <;>
    first
      | (unfold Core.Get; rw [hget])
      | (unfold Core.DGet; rw [hget])
      | (unfold Core.DKeys; rw [hget])
      | (unfold Core.DGetAll; rw [hget])
      | (unfold Core.LLen; rw [hget])
      | (unfold Core.LRange; rw [hget])
      | (unfold Core.LIndex; rw [hget])
      | (unfold Core.Ttl; rw [hget])

/-- Witness for c7_expired_treated_absent_frame at a concrete expired item. -/
theorem c7_expired_treated_absent_frame_witness :
    Core.Get
      (fun k => if k = "k" then some ((NewItemBytes [7]).SetTtl 1 0) else none)
      5 "k"
      = (.error .notFound,
         fun k => if k = "k" then some ((NewItemBytes [7]).SetTtl 1 0) else none) :=
  (c7_expired_treated_absent_frame
    (fun k => if k = "k" then some ((NewItemBytes [7]).SetTtl 1 0) else none)
    5 "k" ((NewItemBytes [7]).SetTtl 1 0) "f" 0 0 0
    (by simp)
    (by decide)).2.1

/-- Claim C8: missing-key (or expired-key) behaviour per operation: HKEYS and
HGETALL return an empty list, LLEN and HDEL return 0, TTL returns -2 (and -1
when the key exists without a TTL), EXPIRE and PERSIST return 0, GET, HGET,
LINDEX and LPOP fail with NotFound, LSET fails with the distinct NoSuchKey
error, and InvalidIndex is what LSET returns for an existing list whose
normalized index is out of range. -/
theorem c8_missing_key_behaviour (s : Store) (now : Int) (key field : String)
    (fields : List String) (seconds index : Int) (value : Byt) :
    (Core.getItem s now key = none →
      Core.DKeys s now key = (.ok [], s)
      ∧ Core.DGetAll s now key = (.ok [], s)
      ∧ Core.LLen s now key = (.ok 0, s)
      ∧ Core.DDel s now key fields = (.ok 0, s)
      ∧ Core.Ttl s now key = (-2, s)
      ∧ Core.Expire s now key seconds = (0, s)
      ∧ Core.Persist s now key = (0, s)
      ∧ Core.Get s now key = (.error .notFound, s)
      ∧ Core.DGet s now key field = (.error .notFound, s)
      ∧ Core.LIndex s now key index = (.error .notFound, s)
      ∧ Core.LPop s now key = (.error .notFound, s)
      ∧ Core.LSet s now key index value = (.error .noSuchKey, s))
    ∧ (∀ item, Core.getItem s now key = some item → item.HasTtl = false →
        Core.Ttl s now key = (-1, s))
    ∧ (∀ item, Core.getItem s now key = some item → item.kind = .list →
        (¬(0 ≤ (if index < 0 then index + (item.list.length : Int) else index)
           ∧ (if index < 0 then index + (item.list.length : Int) else index)
             ≤ (item.list.length : Int) - 1)) →
        Core.LSet s now key index value = (.error .invalidIndex, s)) := by
  refine ⟨?_, ?_, ?_⟩
  · intro hnone
    refine ⟨?_, ?_, ?_, ?_, ?_, ?_, ?_, ?_, ?_, ?_, ?_, ?_⟩ <;>
      simp [Core.DKeys, Core.DGetAll, Core.LLen, Core.DDel, Core.Ttl,
        Core.Expire, Core.Persist, Core.Get, Core.DGet, Core.LIndex,
        Core.LPop, Core.LSet, hnone]
  · intro item hsome hnottl
    unfold Core.Ttl
    rw [hsome]
    simp [hnottl]
  · intro item hsome hkind hrange
    unfold Core.LSet
    rw [hsome]
    simp [hkind, hrange]

/-- Witness for c8_missing_key_behaviour on the empty store, plus the TTL = -1
and LSET InvalidIndex cases on concrete items. -/
theorem c8_missing_key_behaviour_witness :
    Core.Ttl (fun _ => none) 0 "k" = (-2, fun _ => none)
    ∧ Core.Ttl (fun k => if k = "k" then some (NewItemBytes [1]) else none) 0 "k"
      = (-1, fun k => if k = "k" then some (NewItemBytes [1]) else none)
    ∧ Core.LSet (fun k => if k = "k" then some (NewItemList [[1]]) else none)
        0 "k" 5 [9]
      = (.error .invalidIndex,
         fun k => if k = "k" then some (NewItemList [[1]]) else none) := by
  refine ⟨?_, ?_, ?_⟩
  · exact ((c8_missing_key_behaviour (fun _ => none) 0 "k" "f" [] 0 0 []).1
      (by simp [Core.getItem, Storage.Get])).2.2.2.2.1
  · exact (c8_missing_key_behaviour
      (fun k => if k = "k" then some (NewItemBytes [1]) else none) 0 "k" "f" [] 0 0 []).2.1
      (NewItemBytes [1])
      (by simp [Core.getItem, Storage.Get, NewItemBytes, Item.IsExpired, Item.HasTtl])
      (by decide)
  · exact (c8_missing_key_behaviour
      (fun k => if k = "k" then some (NewItemList [[1]]) else none) 0 "k" "f" [] 0 5 [9]).2.2
      (NewItemList [[1]])
      (by simp [Core.getItem, Storage.Get, NewItemList, Item.IsExpired, Item.HasTtl])
      (by decide)
      (by decide)

/-- Claim C10: error atomicity: whenever one of the listed Core operations
returns an error, the returned storage is exactly the input storage — no key
added, removed or replaced, no payload or TTL modified; in particular DSet and
LPush on a key holding a wrong-kind item do not insert or overwrite anything. -/
theorem c10_error_atomicity (s : Store) (now : Int) (key field : String)
    (fields : List String) (start stop index : Int) (value : Byt)
    (values : List Byt) :
    (∀ e, (Core.Get s now key).1 = .error e → (Core.Get s now key).2 = s)
    ∧ (∀ e, (Core.DGet s now key field).1 = .error e →
        (Core.DGet s now key field).2 = s)
    ∧ (∀ e, (Core.DKeys s now key).1 = .error e → (Core.DKeys s now key).2 = s)
    ∧ (∀ e, (Core.DGetAll s now key).1 = .error e →
        (Core.DGetAll s now key).2 = s)
    ∧ (∀ e, (Core.DSet s now key field value).1 = .error e →
        (Core.DSet s now key field value).2 = s)
    ∧ (∀ e, (Core.DDel s now key fields).1 = .error e →
        (Core.DDel s now key fields).2 = s)
    ∧ (∀ e, (Core.LLen s now key).1 = .error e → (Core.LLen s now key).2 = s)
    ∧ (∀ e, (Core.LRange s now key start stop).1 = .error e →
        (Core.LRange s now key start stop).2 = s)
    ∧ (∀ e, (Core.LIndex s now key index).1 = .error e →
        (Core.LIndex s now key index).2 = s)
    ∧ (∀ e, (Core.LSet s now key index value).1 = .error e →
        (Core.LSet s now key index value).2 = s)
    ∧ (∀ e, (Core.LPush s now key values).1 = .error e →
        (Core.LPush s now key values).2 = s)
    ∧ (∀ e, (Core.LPop s now key).1 = .error e → (Core.LPop s now key).2 = s) := by
  refine ⟨?_, ?_, ?_, ?_, ?_, ?_, ?_, ?_, ?_, ?_, ?_, ?_⟩ <;> intro e
  · simp only [Core.Get]
    repeat' split
    all_goals simp_all
  · simp only [Core.DGet]
    repeat' split
    all_goals simp_all
  · simp only [Core.DKeys]
    repeat' split
    all_goals simp_all
  · simp only [Core.DGetAll]
    repeat' split
    all_goals simp_all
  · simp only [Core.DSet]
    repeat' split
    all_goals simp_all
  · simp only [Core.DDel]
    repeat' split
    all_goals simp_all
  · simp only [Core.LLen]
    repeat' split
    all_goals simp_all
  · simp only [Core.LRange]
    repeat' split
    all_goals simp_all
  · simp only [Core.LIndex]
    repeat' split
    all_goals simp_all
  · simp only [Core.LSet]
    repeat' split
    all_goals simp_all
  · simp only [Core.LPush]
    repeat' split
    all_goals simp_all
  · simp only [Core.LPop]
    repeat' split
    all_goals simp_all

/-- Claim C3: WAL replay reads records in order and, for every record, skips
it if its id is at most the current sequence id (so a record already merged
into the snapshot or applied from an earlier WAL is never applied twice);
otherwise it normalizes the TTL argument, dispatches the record, advances the
sequence id on success, and aborts recovery when the dispatched response
status is not StatusOk (or when TTL normalization or record unmarshalling
fails); a truncated final record — end of input inside the 8-byte length or
inside the body — is treated as end-of-stream rather than an error. -/
theorem c3_processwal_replay {σ : Type} (unmarshal : List Nat → Option Request)
    (fixTtl : Request → Except String Request)
    (process : σ → Request → Status × σ)
    (input : List Nat) (messageId : Int) (st : σ) :
    (input.length < 8 →
      Keeper.processWal unmarshal fixTtl process input messageId st
        = .ok (messageId, st))
    ∧ (8 ≤ input.length → (input.drop 8).length < leUint64 (input.take 8) →
      Keeper.processWal unmarshal fixTtl process input messageId st
        = .ok (messageId, st))
    ∧ (∀ req rest, GencodeDecoder.Decode unmarshal input = .ok req rest →
        req.id ≤ messageId →
        Keeper.processWal unmarshal fixTtl process input messageId st
          = Keeper.processWal unmarshal fixTtl process rest messageId st)
    ∧ (∀ req rest req2, GencodeDecoder.Decode unmarshal input = .ok req rest →
        messageId < req.id → fixTtl req = .ok req2 →
        (process st req2).1 = Status.ok →
        Keeper.processWal unmarshal fixTtl process input messageId st
          = Keeper.processWal unmarshal fixTtl process rest req2.id
              (process st req2).2)
    ∧ (∀ req rest req2, GencodeDecoder.Decode unmarshal input = .ok req rest →
        messageId < req.id → fixTtl req = .ok req2 →
        (process st req2).1 ≠ Status.ok →
        Keeper.processWal unmarshal fixTtl process input messageId st
          = .error "Keeper.processWal(): response status is not StatusOk")
    ∧ (∀ req rest e, GencodeDecoder.Decode unmarshal input = .ok req rest →
        messageId < req.id → fixTtl req = .error e →
        Keeper.processWal unmarshal fixTtl process input messageId st
          = .error e)
    ∧ (GencodeDecoder.Decode unmarshal input = .fail →
        Keeper.processWal unmarshal fixTtl process input messageId st
          = .error "Keeper.processWal(): cannot process WAL") := by
  refine ⟨?_, ?_, ?_, ?_, ?_, ?_, ?_⟩
  · intro h8
    have hD : GencodeDecoder.Decode unmarshal input = .eof := by
      unfold GencodeDecoder.Decode
      rw [if_pos h8]
    unfold Keeper.processWal
    split
    · rfl
    next heq => simp [hD] at heq
    next req' rest' heq => simp [hD] at heq
  · intro h8 htrunc
    have hD : GencodeDecoder.Decode unmarshal input = .eof := by
      unfold GencodeDecoder.Decode
      rw [if_neg (not_lt.mpr h8)]
      dsimp only
      rw [if_pos htrunc]
    unfold Keeper.processWal
    split
    · rfl
    next heq => simp [hD] at heq
    next req' rest' heq => simp [hD] at heq
  · intro req rest hD hle
    conv_lhs => unfold Keeper.processWal
    split
    next heq => simp [hD] at heq
    next heq => simp [hD] at heq
    next req' rest' heq =>
      rw [hD] at heq
      cases heq
      rw [if_pos hle]
  · intro req rest req2 hD hgt hfix hok
    conv_lhs => unfold Keeper.processWal
    split
    next heq => simp [hD] at heq
    next heq => simp [hD] at heq
    next req' rest' heq =>
      rw [hD] at heq
      cases heq
      rw [if_neg (not_le.mpr hgt), hfix]
      dsimp only
      rw [if_pos hok]
  · intro req rest req2 hD hgt hfix hbad
    unfold Keeper.processWal
    split
    next heq => simp [hD] at heq
    next heq => simp [hD] at heq
    next req' rest' heq =>
      rw [hD] at heq
      cases heq
      rw [if_neg (not_le.mpr hgt), hfix]
      dsimp only
      rw [if_neg hbad]
  · intro req rest e hD hgt hfix
    unfold Keeper.processWal
    split
    next heq => simp [hD] at heq
    next heq => simp [hD] at heq
    next req' rest' heq =>
      rw [hD] at heq
      cases heq
      rw [if_neg (not_le.mpr hgt), hfix]
  · intro hD
    unfold Keeper.processWal
    split
    next heq => simp [hD] at heq
    · rfl
    next req' rest' heq => simp [hD] at heq

/-- Witness for c3_processwal_replay: a stream holding a single record of id 1
(8-byte zero length header, empty body unmarshalled to the record) is skipped
when the sequence id is already 1, and the 4-byte truncated header is treated
as end-of-stream. -/
theorem c3_processwal_replay_witness :
    Keeper.processWal
      (fun _ => some { time := 0, id := 1, cmd := "DEL", args := [], unreliable := false })
      (fun r => .ok r) (fun st _ => (Status.ok, st))
      [0, 0, 0, 0, 0, 0, 0, 0] 1 0
      = .ok (1, (0 : Nat))
    ∧ Keeper.processWal
      (fun _ => some { time := 0, id := 1, cmd := "DEL", args := [], unreliable := false })
      (fun r => .ok r) (fun st _ => (Status.ok, st))
      [0, 0, 0, 0] 1 0
      = .ok (1, (0 : Nat)) := by
  constructor
  · have h := (c3_processwal_replay
      (fun _ => some { time := 0, id := 1, cmd := "DEL", args := [], unreliable := false })
      (fun r => .ok r) (fun st _ => (Status.ok, st))
      [0, 0, 0, 0, 0, 0, 0, 0] 1 0).2.2.1
      { time := 0, id := 1, cmd := "DEL", args := [], unreliable := false } []
      (by rfl) (by decide)
    rw [h]
    exact (c3_processwal_replay
      (fun _ => some { time := 0, id := 1, cmd := "DEL", args := [], unreliable := false })
      (fun r => .ok r) (fun st _ => (Status.ok, st)) [] 1 0).1 (by decide)
  · exact (c3_processwal_replay
      (fun _ => some { time := 0, id := 1, cmd := "DEL", args := [], unreliable := false })
      (fun r => .ok r) (fun st _ => (Status.ok, st)) [0, 0, 0, 0] 1 0).1 (by decide)

/-- Reversing a contiguous slice of a list equals the matching slice of the
reversed list. -/
theorem reverse_take_drop {α : Type} (l : List α) (k m : Nat)
    (h : k + m ≤ l.length) :
    ((l.drop k).take m).reverse = (l.reverse.drop (l.length - k - m)).take m := by
  rw [List.reverse_take, List.length_drop, List.reverse_drop, List.drop_take]
  congr 1
  omega

/-- lrangeSpecSlice renders the specification's reading of LRANGE directly on
the external (head-first) list: normalize negative indices by adding the
length, clamp start to 0 and stop to len-1, and return the inclusive slice
from start to stop (empty when start > stop). -/
def lrangeSpecSlice (l : List Byt) (start stop : Int) : List Byt :=
  let n : Int := l.length
  let start2 := if start < 0 then start + n else start
  let stop2 := if stop < 0 then stop + n else stop
  let start3 := max start2 0
  let stop3 := min stop2 (n - 1)
  if start3 > stop3 then []
  else (l.drop start3.toNat).take (stop3 + 1 - start3).toNat

/-- Claim C5: LRange translates external indices (0 = head) to the internal
representation and returns exactly the specification's inclusive slice of the
external (reversed internal) list; a missing key yields the empty list, not
NotFound, and so does start > stop after normalization (both are instances of
the slice formula). -/
theorem c5_lrange_index_math (s : Store) (now : Int) (key : String)
    (start stop : Int) :
    (Core.getItem s now key = none →
      Core.LRange s now key start stop = (.ok [], s))
    ∧ (∀ item, Core.getItem s now key = some item → item.kind = .list →
        Core.LRange s now key start stop
          = (.ok (lrangeSpecSlice item.list.reverse start stop), s)) := by
  constructor
  · intro hnone
    unfold Core.LRange
    rw [hnone]
  · intro item hsome hkind
    unfold Core.LRange lrangeSpecSlice
    rw [hsome]
    simp only [hkind, ne_eq, not_true_eq_false, if_false, List.length_reverse,
      ite_not]
    by_cases h0 : (item.list.length : Int) = 0
    · have hnil : item.list = [] := List.length_eq_zero.mp (by exact_mod_cast h0)
      simp [hnil, h0]
    · simp only [h0, if_false]
      set n : Int := (item.list.length : Int) with hn
      set start2 := if start < 0 then start + n else start with hstart2
      set stop2 := if stop < 0 then stop + n else stop with hstop2
      set start3 := max start2 0 with hstart3
      set stop3 := min stop2 (n - 1) with hstop3
      by_cases hlt : start3 > stop3
      · simp [hlt]
      · simp only [hlt, if_false]
        have hb0 : 0 ≤ start3 := le_max_right start2 0
        have ha : stop3 ≤ n - 1 := min_le_right stop2 (n - 1)
        have hba : start3 ≤ stop3 := le_of_not_lt hlt
        have hnpos : 0 < n := by
          have : (0 : Int) ≤ n := by positivity
          omega
        congr 2
        have hrw := reverse_take_drop item.list (n - 1 - stop3).toNat
          (n - start3 - (n - 1 - stop3)).toNat (by omega)
        rw [hrw]
        have h2 : (item.list.length - (n - 1 - stop3).toNat
            - (n - start3 - (n - 1 - stop3)).toNat) = start3.toNat := by
          omega
        have h1 : (n - start3 - (n - 1 - stop3)).toNat = (stop3 + 1 - start3).toNat := by
          omega
        rw [h2, h1]

/-- Witness for c5_lrange_index_math: LRANGE 1 -1 on a three-element list. -/
theorem c5_lrange_index_math_witness :
    Core.LRange (fun k => if k = "l" then some (NewItemList [[1], [2], [3]]) else none)
      0 "l" 1 (-1)
    = (.ok (lrangeSpecSlice [[3], [2], [1]] 1 (-1)),
       fun k => if k = "l" then some (NewItemList [[1], [2], [3]]) else none) :=
  (c5_lrange_index_math
    (fun k => if k = "l" then some (NewItemList [[1], [2], [3]]) else none)
    0 "l" 1 (-1)).2 (NewItemList [[1], [2], [3]])
    (by simp [Core.getItem, Storage.Get, NewItemList, Item.IsExpired, Item.HasTtl])
    (by rfl)

/-- Claim C1, counterexample: after LPush on a missing key with values a, b, c
(97, 98, 99), LRange 0 -1 returns the values in reversed push order
[c, b, a], not [a, b, c] as the claim states. -/
theorem c1_counterexample :
    (Core.LRange (Core.LPush (fun _ => none) 0 "l" [[97], [98], [99]]).2
        0 "l" 0 (-1)).1
      = .ok [[99], [98], [97]]
    ∧ [[99], [98], [97]] ≠ [[97], [98], [99]] :=
  ⟨rfl, by decide⟩

/-- Claim C1, amended: LPush prepends its values one by one left-to-right so
that the LAST pushed value becomes the external head: for a missing key, after
LPush(key, [a,b,c]) the push count is 3 and the list reads [c,b,a] in external
order, so LRange(key,0,-1) returns [c,b,a], LIndex(key,0) returns c,
LPop(key) returns c and leaves [b,a]. -/
theorem c1_lpush_order (s : Store) (now : Int) (key : String) (a b c : Byt)
    (h : s key = none) :
    (Core.LPush s now key [a, b, c]).1 = .ok 3
    ∧ (Core.LRange (Core.LPush s now key [a, b, c]).2 now key 0 (-1)).1
      = .ok [c, b, a]
    ∧ (Core.LIndex (Core.LPush s now key [a, b, c]).2 now key 0).1 = .ok c
    ∧ (Core.LPop (Core.LPush s now key [a, b, c]).2 now key).1 = .ok c
    ∧ (Core.LRange (Core.LPop (Core.LPush s now key [a, b, c]).2 now key).2
          now key 0 (-1)).1
      = .ok [b, a] := by
  have hgi : Core.getItem s now key = none := by
    unfold Core.getItem Storage.Get
    rw [h]
  have hpush : Core.LPush s now key [a, b, c]
      = (.ok 3, Storage.AddOrReplaceOne s key
          { expireAt := none, kind := .list, bytes := [],
            list := [a, b, c], dict := [] }) := by
    unfold Core.LPush
    rw [hgi]
    rfl
  have hitem : Core.getItem (Core.LPush s now key [a, b, c]).2 now key
      = some { expireAt := none, kind := .list, bytes := [],
               list := [a, b, c], dict := [] } := by
    rw [hpush]
    simp [Core.getItem, Storage.Get, Storage.AddOrReplaceOne,
      Item.IsExpired, Item.HasTtl]
  have hpop : Core.LPop (Core.LPush s now key [a, b, c]).2 now key
      = (.ok c, Storage.AddOrReplaceOne (Core.LPush s now key [a, b, c]).2 key
          { expireAt := none, kind := .list, bytes := [],
            list := [a, b], dict := [] }) := by
    unfold Core.LPop
    rw [hitem]
    rfl
  have hitem2 : Core.getItem
      (Core.LPop (Core.LPush s now key [a, b, c]).2 now key).2 now key
      = some { expireAt := none, kind := .list, bytes := [],
               list := [a, b], dict := [] } := by
    rw [hpop]
    simp [Core.getItem, Storage.Get, Storage.AddOrReplaceOne,
      Item.IsExpired, Item.HasTtl]
  refine ⟨by rw [hpush], ?_, ?_, by rw [hpop], ?_⟩
  · unfold Core.LRange
    rw [hitem]
    rfl
  · unfold Core.LIndex
    rw [hitem]
    rfl
  · unfold Core.LRange
    rw [hitem2]
    rfl

/-- Witness for c1_lpush_order on the empty store. -/
theorem c1_lpush_order_witness :
    (Core.LRange (Core.LPush (fun _ => none) 0 "l" [[97], [98], [99]]).2
        0 "l" 0 (-1)).1
      = .ok [[99], [98], [97]] :=
  (c1_lpush_order (fun _ => none) 0 "l" [97] [98] [99] rfl).2.1

/-! Lemmas about the association-list operations that model Go maps. -/

/-- Looking a key up after deleting a (possibly different) key. -/
theorem mapGet_mapDel {α : Type} (m : List (String × α)) (k k' : String) :
    mapGet (mapDel m k) k' = if k' = k then none else mapGet m k' := by
  induction m with
  | nil =>
    simp only [mapDel, mapGet]
    split <;> rfl
  | cons kv rest ih =>
    by_cases h1 : kv.1 = k <;> by_cases h2 : k' = k <;>
      by_cases h3 : kv.1 = k' <;>
      simp_all [mapGet, mapDel]

/-- mapGet returns an entry of the list. -/
theorem mapGet_mem {α : Type} (m : List (String × α)) (k : String) (h : α)
    (hget : mapGet m k = some h) : (k, h) ∈ m := by
  induction m with
  | nil => cases hget
  | cons kv rest ih =>
    obtain ⟨k1, v1⟩ := kv
    unfold mapGet at hget
    by_cases h1 : k1 = k
    · subst h1
      simp at hget
      subst hget
      exact List.mem_cons_self _ _
    · rw [if_neg h1] at hget
      exact List.mem_cons_of_mem _ (ih hget)

/-- On a list with unique keys, mapGet finds each entry's own value. -/
theorem mapGet_of_mem_nodup {α : Type} (m : List (String × α))
    (hnd : (m.map Prod.fst).Nodup) (kv : String × α) (hmem : kv ∈ m) :
    mapGet m kv.1 = some kv.2 := by
  induction m with
  | nil => cases hmem
  | cons kv0 rest ih =>
    rw [List.map_cons, List.nodup_cons] at hnd
    cases hmem with
    | head => simp [mapGet]
    | tail _ hmem' =>
      have hne : kv0.1 ≠ kv.1 := by
        intro he
        exact hnd.1 (he ▸ List.mem_map_of_mem Prod.fst hmem')
      simp only [mapGet, if_neg hne]
      exact ih hnd.2 hmem'

/-- mapGet misses exactly the keys absent from the list. -/
theorem mapGet_eq_none_iff {α : Type} (m : List (String × α)) (k : String) :
    mapGet m k = none ↔ k ∉ m.map Prod.fst := by
  induction m with
  | nil => simp [mapGet]
  | cons kv rest ih =>
    unfold mapGet
    by_cases h1 : kv.1 = k
    · simp [h1]
    · simp only [if_neg h1, List.map_cons, List.mem_cons, ih]
      have : ¬ k = kv.1 := fun hk => h1 hk.symm
      simp [this]

/-- Unfolding equation for StorageHash.Get, stated by rfl. -/
theorem StorageHash.Get_eq {α : Type} (hb : String → Fin bucketsCount)
    (s : StorageHash α) (key : String) :
    StorageHash.Get hb s key = mapGet (s.data (hb key)) key := rfl

/-- Unfolding equation for StorageHash.DelSubmap, stated by rfl. -/
theorem StorageHash.DelSubmap_eq {α : Type} [DecidableEq α]
    (hb : String → Fin bucketsCount) (submap : List (String × α))
    (s : StorageHash α) :
    StorageHash.DelSubmap hb submap s
      = (List.finRange bucketsCount).foldl
          (StorageHash.delSubmapStep hb submap) (0, s) := rfl

/-- Unfolding equation for StorageHash.Persist, stated by rfl. -/
theorem StorageHash.Persist_eq (s : StorageHash Item) (lastMessageId : Int) :
    StorageHash.Persist s lastMessageId
      = (lastMessageId,
          (List.finRange bucketsCount).flatMap
            (fun b => (s.data b).map (fun kv => Item.toGob kv.1 kv.2))) := rfl

/-- Unfolding equation for StorageHash.Load, stated by rfl. -/
theorem StorageHash.Load_eq (hb : String → Fin bucketsCount)
    (s : StorageHash Item) (input : Int × List GobExportItem) :
    StorageHash.Load hb s input
      = if (List.finRange bucketsCount).all (fun b => (s.data b).isEmpty) then
          .ok (input.1, StorageHash.loadRecords hb input.2 s)
        else .error "StorageHash.Load(): restore enabled only on empty storage" :=
  rfl

/-- casMatch is the CAS test of DelSubmap: the stored handle exists and is
identical to the handle the submap supplies. -/
def casMatch {α : Type} [DecidableEq α] (submapGet : String → Option α)
    (m : List (String × α)) (k : String) : Bool :=
  match mapGet m k with
  | some existing => decide (submapGet k = some existing)
  | none => false

/-- Lookup after delBucketKeys: a key is gone exactly when it was processed
and its CAS test matched; everything else is untouched. -/
theorem delBucketKeys_data {α : Type} [DecidableEq α]
    (submapGet : String → Option α) (ks : List String) (hnd : ks.Nodup) :
    ∀ (c0 : Nat) (m : List (String × α)) (k : String),
      mapGet (StorageHash.delBucketKeys submapGet (c0, m) ks).2 k
        = if k ∈ ks ∧ casMatch submapGet m k then none else mapGet m k := by
  induction ks with
  | nil =>
    intro c0 m k
    simp [StorageHash.delBucketKeys]
  | cons k0 rest ih =>
    rw [List.nodup_cons] at hnd
    intro c0 m k
    unfold StorageHash.delBucketKeys
    cases hm0 : mapGet m k0 with
    | none =>
      dsimp only
      rw [ih hnd.2 c0 m k]
      by_cases hk : k = k0
      · subst hk
        have hcas : casMatch submapGet m k = false := by
          unfold casMatch
          rw [hm0]
        simp [hcas, hnd.1]
      · simp [List.mem_cons, hk]
    | some e0 =>
      dsimp only
      by_cases hyes : submapGet k0 = some e0
      · rw [if_pos hyes, ih hnd.2 (c0 + 1) (mapDel m k0) k]
        by_cases hk : k = k0
        · subst hk
          have hcas : casMatch submapGet m k = true := by
            unfold casMatch
            rw [hm0]
            exact decide_eq_true hyes
          simp [hnd.1, hcas, mapGet_mapDel]
        · have hdel : mapGet (mapDel m k0) k = mapGet m k := by
            rw [mapGet_mapDel, if_neg hk]
          have hcas : casMatch submapGet (mapDel m k0) k
              = casMatch submapGet m k := by
            unfold casMatch
            rw [hdel]
          rw [hdel, hcas]
          simp [List.mem_cons, hk]
      · rw [if_neg hyes, ih hnd.2 c0 m k]
        by_cases hk : k = k0
        · subst hk
          have hcas : casMatch submapGet m k = false := by
            unfold casMatch
            rw [hm0]
            exact decide_eq_false hyes
          simp [hcas, hnd.1]
        · simp [List.mem_cons, hk]

/-- Count after delBucketKeys: the number of processed keys whose CAS test
matched against the initial bucket contents. -/
theorem delBucketKeys_count {α : Type} [DecidableEq α]
    (submapGet : String → Option α) (ks : List String) (hnd : ks.Nodup) :
    ∀ (c0 : Nat) (m : List (String × α)),
      (StorageHash.delBucketKeys submapGet (c0, m) ks).1
        = c0 + (ks.filter (fun k => casMatch submapGet m k)).length := by
  induction ks with
  | nil =>
    intro c0 m
    simp [StorageHash.delBucketKeys]
  | cons k0 rest ih =>
    rw [List.nodup_cons] at hnd
    intro c0 m
    unfold StorageHash.delBucketKeys
    cases hm0 : mapGet m k0 with
    | none =>
      dsimp only
      rw [ih hnd.2 c0 m]
      have hcas : casMatch submapGet m k0 = false := by
        unfold casMatch
        rw [hm0]
      simp [List.filter_cons, hcas]
    | some e0 =>
      dsimp only
      by_cases hyes : submapGet k0 = some e0
      · rw [if_pos hyes, ih hnd.2 (c0 + 1) (mapDel m k0)]
        have hcas : casMatch submapGet m k0 = true := by
          unfold casMatch
          rw [hm0]
          exact decide_eq_true hyes
        have hcong : rest.filter (fun k => casMatch submapGet (mapDel m k0) k)
            = rest.filter (fun k => casMatch submapGet m k) := by
          apply List.filter_congr
          intro k hk
          have hkne : k ≠ k0 := fun he => hnd.1 (he ▸ hk)
          unfold casMatch
          rw [mapGet_mapDel, if_neg hkne]
        rw [hcong]
        simp [List.filter_cons, hcas]
        omega
      · rw [if_neg hyes, ih hnd.2 c0 m]
        have hcas : casMatch submapGet m k0 = false := by
          unfold casMatch
          rw [hm0]
          exact decide_eq_false hyes
        simp [List.filter_cons, hcas]

/-- Per-bucket contents after the DelSubmap fold: each visited bucket is
processed once with its own share of the submap keys. -/
theorem delSubmap_foldl_data {α : Type} [DecidableEq α]
    (hb : String → Fin bucketsCount) (submap : List (String × α))
    (l : List (Fin bucketsCount)) (hl : l.Nodup) :
    ∀ (c0 : Nat) (s : StorageHash α) (b : Fin bucketsCount),
      ((l.foldl (StorageHash.delSubmapStep hb submap) (c0, s)).2.data b)
        = if b ∈ l
          then (StorageHash.delBucketKeys (mapGet submap) (0, s.data b)
            ((submap.filter (fun kv => hb kv.1 = b)).map Prod.fst)).2
          else s.data b := by
  induction l with
  | nil =>
    intro c0 s b
    simp
  | cons b0 l' ih =>
    rw [List.nodup_cons] at hl
    intro c0 s b
    rw [List.foldl_cons]
    have hstep : (StorageHash.delSubmapStep hb submap (c0, s) b0).2.data
        = Function.update s.data b0
            (StorageHash.delBucketKeys (mapGet submap) (0, s.data b0)
              ((submap.filter (fun kv => hb kv.1 = b0)).map Prod.fst)).2 := by
      rfl
    rw [ih hl.2 _ _ b, hstep]
    by_cases hbb : b = b0
    · subst hbb
      simp [hl.1, Function.update_same]
    · simp [List.mem_cons, hbb, Function.update_noteq hbb]

/-- Count after the DelSubmap fold: the sum of the per-bucket counts taken on
the original per-bucket contents. -/
theorem delSubmap_foldl_count {α : Type} [DecidableEq α]
    (hb : String → Fin bucketsCount) (submap : List (String × α))
    (l : List (Fin bucketsCount)) (hl : l.Nodup) :
    ∀ (c0 : Nat) (s : StorageHash α),
      (l.foldl (StorageHash.delSubmapStep hb submap) (c0, s)).1
        = c0 + (l.map (fun b => (StorageHash.delBucketKeys (mapGet submap)
            (0, s.data b)
            ((submap.filter (fun kv => hb kv.1 = b)).map Prod.fst)).1)).sum := by
  induction l with
  | nil =>
    intro c0 s
    simp
  | cons b0 l' ih =>
    rw [List.nodup_cons] at hl
    intro c0 s
    rw [List.foldl_cons, ih hl.2]
    have hcong : l'.map (fun b => (StorageHash.delBucketKeys (mapGet submap)
          (0, (StorageHash.delSubmapStep hb submap (c0, s) b0).2.data b)
          ((submap.filter (fun kv => hb kv.1 = b)).map Prod.fst)).1)
        = l'.map (fun b => (StorageHash.delBucketKeys (mapGet submap)
          (0, s.data b)
          ((submap.filter (fun kv => hb kv.1 = b)).map Prod.fst)).1) := by
      apply List.map_congr_left
      intro b hbmem
      have hbne : b ≠ b0 := fun he => hl.1 (he ▸ hbmem)
      have : (StorageHash.delSubmapStep hb submap (c0, s) b0).2.data b
          = s.data b := Function.update_noteq hbne _ _
      rw [this]
    rw [hcong]
    simp [StorageHash.delSubmapStep]
    omega

/-- Summing the per-bucket filter lengths over all buckets counts every entry
once: each entry lives in exactly the bucket its hash selects. -/
theorem sum_filter_bucket_length {α : Type} (hb : String → Fin bucketsCount)
    (L : List (String × α)) :
    (∑ b : Fin bucketsCount, (L.filter (fun kv => hb kv.1 = b)).length)
      = L.length := by
  induction L with
  | nil => simp
  | cons kv L' ih =>
    have hsplit : ∀ b : Fin bucketsCount,
        ((kv :: L').filter (fun kv2 => hb kv2.1 = b)).length
          = (if hb kv.1 = b then 1 else 0)
            + (L'.filter (fun kv2 => hb kv2.1 = b)).length := by
      intro b
      by_cases h : hb kv.1 = b
      · simp [List.filter_cons, h]
        omega
      · simp [List.filter_cons, h]
    simp only [hsplit]
    rw [Finset.sum_add_distrib, ih, Finset.sum_ite_eq]
    simp only [Finset.mem_univ, if_true, List.length_cons]
    omega

/-- Claim C2: DelSubmap removes a key only when the item currently stored
under it is the identical handle supplied in the submap, returns the count
actually removed, and in particular a key whose stored handle differs from the
observed one (an item replaced between CollectExpired's observation and the
CAS delete) keeps its current item. -/
theorem c2_delsubmap_cas {α : Type} [DecidableEq α]
    (hb : String → Fin bucketsCount) (submap : List (String × α))
    (s : StorageHash α) (hnd : (submap.map Prod.fst).Nodup) :
    (∀ k h, mapGet submap k = some h →
      StorageHash.Get hb (StorageHash.DelSubmap hb submap s).2 k
        = if StorageHash.Get hb s k = some h then none
          else StorageHash.Get hb s k)
    ∧ (∀ k, mapGet submap k = none →
      StorageHash.Get hb (StorageHash.DelSubmap hb submap s).2 k
        = StorageHash.Get hb s k)
    ∧ (StorageHash.DelSubmap hb submap s).1
        = (submap.filter
            (fun kv => StorageHash.Get hb s kv.1 = some kv.2)).length
    ∧ (∀ k h h2, mapGet submap k = some h →
        StorageHash.Get hb s k = some h2 → h2 ≠ h →
        StorageHash.Get hb (StorageHash.DelSubmap hb submap s).2 k = some h2) := by
  have hksnd : ∀ b : Fin bucketsCount,
      ((submap.filter (fun kv => hb kv.1 = b)).map Prod.fst).Nodup := by
    intro b
    exact List.Nodup.sublist
      (List.Sublist.map Prod.fst (List.filter_sublist submap)) hnd
  have hdata : ∀ k : String,
      StorageHash.Get hb (StorageHash.DelSubmap hb submap s).2 k
        = if k ∈ (submap.filter (fun kv => hb kv.1 = hb k)).map Prod.fst
              ∧ casMatch (mapGet submap) (s.data (hb k)) k
          then none else mapGet (s.data (hb k)) k := by
    intro k
    rw [StorageHash.Get_eq, StorageHash.DelSubmap_eq,
      delSubmap_foldl_data hb submap (List.finRange bucketsCount)
      (List.nodup_finRange bucketsCount) 0 s (hb k),
      if_pos (List.mem_finRange (hb k)),
      delBucketKeys_data (mapGet submap) _ (hksnd (hb k)) 0 (s.data (hb k)) k]
  have hget1 : ∀ k h, mapGet submap k = some h →
      StorageHash.Get hb (StorageHash.DelSubmap hb submap s).2 k
        = if StorageHash.Get hb s k = some h then none
          else StorageHash.Get hb s k := by
    intro k h hk
    rw [hdata k]
    have hmem : k ∈ (submap.filter (fun kv => hb kv.1 = hb k)).map Prod.fst := by
      refine List.mem_map_of_mem Prod.fst (List.mem_filter.mpr ⟨mapGet_mem submap k h hk, by simp⟩)
    simp only [StorageHash.Get_eq]
    cases hsg : mapGet (s.data (hb k)) k with
    | none =>
      have hcas : casMatch (mapGet submap) (s.data (hb k)) k = false := by
        unfold casMatch
        rw [hsg]
      simp [hcas, hsg]
    | some e =>
      by_cases he : h = e
      · subst he
        have hcas : casMatch (mapGet submap) (s.data (hb k)) k = true := by
          unfold casMatch
          rw [hsg]
          exact decide_eq_true hk
        simp [hmem, hcas, hsg]
      · have hcas : casMatch (mapGet submap) (s.data (hb k)) k = false := by
          unfold casMatch
          rw [hsg, hk]
          simp [he]
        have hneq : ¬ (some e = some h) := by
          simp only [Option.some.injEq]
          exact fun hh => he hh.symm
        simp [hcas, hsg, hneq]
  refine ⟨hget1, ?_, ?_, ?_⟩
  · intro k hk
    rw [hdata k]
    have hnotmem : k ∉ (submap.filter (fun kv => hb kv.1 = hb k)).map Prod.fst := by
      intro hmem
      rcases List.mem_map.mp hmem with ⟨kv, hkvmem, hfst⟩
      have hkvsub : kv ∈ submap := (List.mem_filter.mp hkvmem).1
      have : k ∈ submap.map Prod.fst := hfst ▸ List.mem_map_of_mem Prod.fst hkvsub
      exact ((mapGet_eq_none_iff submap k).mp hk) this
    simp only [StorageHash.Get_eq]
    simp [hnotmem]
  · rw [StorageHash.DelSubmap_eq,
      delSubmap_foldl_count hb submap (List.finRange bucketsCount)
      (List.nodup_finRange bucketsCount) 0 s]
    have hperb : ∀ b : Fin bucketsCount,
        (StorageHash.delBucketKeys (mapGet submap) (0, s.data b)
          ((submap.filter (fun kv => hb kv.1 = b)).map Prod.fst)).1
        = ((submap.filter
            (fun kv => StorageHash.Get hb s kv.1 = some kv.2)).filter
            (fun kv => hb kv.1 = b)).length := by
      intro b
      rw [delBucketKeys_count (mapGet submap) _ (hksnd b) 0 (s.data b)]
      have hmapfil : ((submap.filter (fun kv => hb kv.1 = b)).map Prod.fst).filter
            (fun k => casMatch (mapGet submap) (s.data b) k)
          = ((submap.filter (fun kv => hb kv.1 = b)).filter
            (fun kv => casMatch (mapGet submap) (s.data b) kv.1)).map Prod.fst := by
        rw [List.filter_map]
        rfl
      rw [Nat.zero_add, hmapfil, List.length_map]
      have hcongr : (submap.filter (fun kv => hb kv.1 = b)).filter
            (fun kv => casMatch (mapGet submap) (s.data b) kv.1)
          = (submap.filter (fun kv => hb kv.1 = b)).filter
            (fun kv => StorageHash.Get hb s kv.1 = some kv.2) := by
        apply List.filter_congr
        intro kv hkv
        rcases List.mem_filter.mp hkv with ⟨hkvsub, hkvb⟩
        have hkvb' : hb kv.1 = b := by simpa using hkvb
        have hsub : mapGet submap kv.1 = some kv.2 :=
          mapGet_of_mem_nodup submap hnd kv hkvsub
        unfold casMatch
        simp only [StorageHash.Get_eq]
        rw [hsub]
        simp only [hkvb']
        cases hsg : mapGet (s.data b) kv.1 with
        | none => simp
        | some e => simp [eq_comm]
      rw [hcongr, List.filter_comm]
    have hlistsum : ((List.finRange bucketsCount).map
          (fun b => (StorageHash.delBucketKeys (mapGet submap) (0, s.data b)
            ((submap.filter (fun kv => hb kv.1 = b)).map Prod.fst)).1)).sum
        = ∑ b : Fin bucketsCount,
            ((submap.filter
              (fun kv => StorageHash.Get hb s kv.1 = some kv.2)).filter
              (fun kv => hb kv.1 = b)).length := by
      rw [Fin.sum_univ_def]
      exact congrArg List.sum (List.map_congr_left (fun b _ => hperb b))
    rw [hlistsum, sum_filter_bucket_length hb, Nat.zero_add]
  · intro k h h2 hk hs2 hne
    have hneq : ¬ (some h2 = some h) := by
      simp only [Option.some.injEq]
      exact hne
    rw [hget1 k h hk, hs2, if_neg hneq]

/-- bucket0 is a concrete bucket index used to build small sharded storages in
concrete instantiations. -/
def bucket0 : Fin bucketsCount := ⟨0, by norm_num [bucketsCount]⟩

/-! Lemmas for the snapshot round trip. -/

/-- Inserting a fresh key appends it at the end of the association list. -/
theorem mapPut_not_mem {α : Type} (m : List (String × α)) (k : String) (v : α)
    (h : k ∉ m.map Prod.fst) : mapPut m k v = m ++ [(k, v)] := by
  induction m with
  | nil => rfl
  | cons kv rest ih =>
    simp only [List.map_cons, List.mem_cons] at h
    push_neg at h
    unfold mapPut
    rw [if_neg (fun he => h.1 he.symm), List.cons_append, ih h.2]

/-- Folding fresh, pairwise-distinct insertions appends the inserted pairs. -/
theorem foldl_mapPut_append {α : Type} (ps : List (String × α)) :
    ∀ (m : List (String × α)),
      (∀ p ∈ ps, p.1 ∉ m.map Prod.fst) → (ps.map Prod.fst).Nodup →
      ps.foldl (fun m2 p => mapPut m2 p.1 p.2) m = m ++ ps := by
  induction ps with
  | nil =>
    intro m _ _
    simp
  | cons p ps' ih =>
    intro m hfresh hnd
    rw [List.map_cons, List.nodup_cons] at hnd
    rw [List.foldl_cons, mapPut_not_mem m p.1 p.2 (hfresh p (List.mem_cons_self p ps')),
      ih (m ++ [(p.1, p.2)]) ?_ hnd.2]
    · simp
    · intro q hq
      rw [List.map_append, List.mem_append]
      rintro (hqm | hqp)
      · exact hfresh q (List.mem_cons_of_mem p hq) hqm
      · simp only [List.map_cons, List.map_nil, List.mem_singleton] at hqp
        exact hnd.1 (hqp ▸ List.mem_map_of_mem Prod.fst hq)

/-- Per-bucket contents after loadRecords: each bucket receives, in stream
order, exactly the records whose key rehashes to it. -/
theorem loadRecords_data (hb : String → Fin bucketsCount)
    (rs : List GobExportItem) :
    ∀ (s : StorageHash Item) (b : Fin bucketsCount),
      (StorageHash.loadRecords hb rs s).data b
        = (rs.filter (fun e => hb e.key = b)).foldl
            (fun m e => mapPut m e.key e.toItem) (s.data b) := by
  induction rs with
  | nil =>
    intro s b
    simp [StorageHash.loadRecords]
  | cons e rest ih =>
    intro s b
    unfold StorageHash.loadRecords
    rw [ih]
    dsimp only
    by_cases hbe : hb e.key = b
    · rw [List.filter_cons_of_pos (by simp [hbe]), List.foldl_cons]
      have : (Function.update s.data (hb e.key)
          (mapPut (s.data (hb e.key)) e.key e.toItem)) b
          = mapPut (s.data b) e.key e.toItem := by
        rw [← hbe, Function.update_same]
      rw [this]
    · rw [List.filter_cons_of_neg (by simp [hbe])]
      have : (Function.update s.data (hb e.key)
          (mapPut (s.data (hb e.key)) e.key e.toItem)) b = s.data b :=
        Function.update_noteq (fun he => hbe he.symm) _ _
      rw [this]

/-- Filtering a concatenation over distinct groups keeps exactly the group
whose elements satisfy the predicate, when the predicate holds on that whole
group and fails on every other group. -/
theorem filter_flatMap_single {ι β : Type} (l : List ι) (f : ι → List β)
    (p : β → Bool) (b : ι) (hl : l.Nodup) (hmem : b ∈ l)
    (hall : ∀ x ∈ f b, p x = true)
    (hnone : ∀ b' ∈ l, b' ≠ b → ∀ x ∈ f b', p x = false) :
    (l.flatMap f).filter p = f b := by
  induction l with
  | nil => cases hmem
  | cons c l' ih =>
    rw [List.nodup_cons] at hl
    rw [List.flatMap_cons, List.filter_append]
    by_cases hcb : c = b
    · subst hcb
      have h1 : (f c).filter p = f c :=
        List.filter_eq_self.mpr hall
      have h2 : (l'.flatMap f).filter p = [] := by
        apply List.filter_eq_nil_iff.mpr
        intro x hx
        rcases List.mem_flatMap.mp hx with ⟨b', hb', hxb'⟩
        have hb'ne : b' ≠ c := fun he => hl.1 (he ▸ hb')
        simp [hnone b' (List.mem_cons_of_mem c hb') hb'ne x hxb']
      rw [h1, h2, List.append_nil]
    · have h1 : (f c).filter p = [] := by
        apply List.filter_eq_nil_iff.mpr
        intro x hx
        simp [hnone c (List.mem_cons_self c l') hcb x hx]
      have hmem' : b ∈ l' := by
        cases List.mem_cons.mp hmem with
        | inl h => exact absurd h.symm hcb
        | inr h => exact h
      rw [h1, List.nil_append]
      exact ih hl.2 hmem'
        (fun b' hb' hne x hx => hnone b' (List.mem_cons_of_mem c hb') hne x hx)

/-- Claim C4: for every well-formed storage S and sequence id n, Persist(w, n)
followed by Load(r) on a fresh empty Storage returns n and rebuilds a storage
that agrees with S on every key — same presence, kind, payload and expireAt
(Get returns the identical Item value); Load invoked on a non-empty Storage
fails with an error instead of loading. -/
theorem c4_persist_load_roundtrip (hb : String → Fin bucketsCount)
    (s : StorageHash Item) (n : Int) (hwf : StorageHash.WF hb s) :
    (∀ k, (StorageHash.Load hb StorageHash.empty (StorageHash.Persist s n)).map
        (fun p => (p.1, StorageHash.Get hb p.2 k))
      = .ok (n, StorageHash.Get hb s k))
    ∧ (∀ (t : StorageHash Item) (input : Int × List GobExportItem)
        (b : Fin bucketsCount), t.data b ≠ [] →
        StorageHash.Load hb t input
          = .error "StorageHash.Load(): restore enabled only on empty storage") := by
  constructor
  · intro k
    have hempty : (List.finRange bucketsCount).all
        (fun b => ((StorageHash.empty : StorageHash Item).data b).isEmpty) = true := by
      simp [StorageHash.empty]
    rw [StorageHash.Persist_eq, StorageHash.Load_eq, if_pos hempty]
    simp only [Except.map]
    have hdata : (StorageHash.loadRecords hb
        ((List.finRange bucketsCount).flatMap
          (fun b => (s.data b).map (fun kv => Item.toGob kv.1 kv.2)))
        StorageHash.empty).data (hb k) = s.data (hb k) := by
      rw [loadRecords_data]
      have hfil : ((List.finRange bucketsCount).flatMap
            (fun b => (s.data b).map (fun kv => Item.toGob kv.1 kv.2))).filter
            (fun e => hb e.key = hb k)
          = (s.data (hb k)).map (fun kv => Item.toGob kv.1 kv.2) := by
        apply filter_flatMap_single (List.finRange bucketsCount) _ _ (hb k)
          (List.nodup_finRange bucketsCount) (List.mem_finRange (hb k))
        · intro x hx
          rcases List.mem_map.mp hx with ⟨kv, hkv, hxe⟩
          have := (hwf (hb k)).2 kv hkv
          subst hxe
          simp [Item.toGob, this]
        · intro b' _ hne x hx
          rcases List.mem_map.mp hx with ⟨kv, hkv, hxe⟩
          have := (hwf b').2 kv hkv
          subst hxe
          simp [Item.toGob, this, hne]
      rw [hfil]
      have hpairs : ((s.data (hb k)).map (fun kv => Item.toGob kv.1 kv.2)).foldl
            (fun m e => mapPut m e.key e.toItem)
            ((StorageHash.empty : StorageHash Item).data (hb k))
          = (s.data (hb k)).foldl
            (fun m kv => mapPut m kv.1 kv.2) [] := by
        rw [List.foldl_map]
        rfl
      rw [hpairs]
      have hfold := foldl_mapPut_append (s.data (hb k)) [] (by simp)
        (hwf (hb k)).1
      simpa using hfold
    simp only [StorageHash.Get_eq]
    rw [hdata]
  · intro t input b hne
    rw [StorageHash.Load_eq, if_neg]
    intro hall
    rw [List.all_eq_true] at hall
    exact hne (List.isEmpty_iff.mp (by simpa using hall b (List.mem_finRange b)))

/-- Witness for c4_persist_load_roundtrip: a one-item storage survives the
round trip and a non-empty storage refuses to load. -/
theorem c4_persist_load_roundtrip_witness :
    (StorageHash.Load (fun _ => bucket0) StorageHash.empty
        (StorageHash.Persist
          (⟨fun b => if b = bucket0 then [("a", NewItemBytes [5])] else []⟩) 7)).map
        (fun p => (p.1, StorageHash.Get (fun _ => bucket0) p.2 "a"))
      = .ok (7, some (NewItemBytes [5]))
    ∧ StorageHash.Load (fun _ => bucket0)
        (⟨fun b => if b = bucket0 then [("a", NewItemBytes [5])] else []⟩)
        (0, [])
      = .error "StorageHash.Load(): restore enabled only on empty storage" := by
  have hwf : StorageHash.WF (fun _ => bucket0)
      (⟨fun b => if b = bucket0 then [("a", NewItemBytes [5])] else []⟩ :
        StorageHash Item) := by
    intro b
    constructor
    · by_cases hb0 : b = bucket0 <;> simp [hb0]
    · intro kv hkv
      by_cases hb0 : b = bucket0
      · subst hb0
        rfl
      · simp [hb0] at hkv
  constructor
  · have h := (c4_persist_load_roundtrip (fun _ => bucket0)
      (⟨fun b => if b = bucket0 then [("a", NewItemBytes [5])] else []⟩) 7 hwf).1 "a"
    rw [h]
    rfl
  · exact (c4_persist_load_roundtrip (fun _ => bucket0)
      (⟨fun b => if b = bucket0 then [("a", NewItemBytes [5])] else []⟩) 7 hwf).2
      (⟨fun b => if b = bucket0 then [("a", NewItemBytes [5])] else []⟩)
      (0, []) bucket0 (by simp)

/-- Witness for c2_delsubmap_cas: of two submap entries, the one whose stored
handle matches is removed (count 1) and the one whose stored handle was
replaced survives. -/
theorem c2_delsubmap_cas_witness :
    StorageHash.Get (fun _ => bucket0)
      (StorageHash.DelSubmap (fun _ => bucket0)
        [("a", 1), ("b", 2)]
        (⟨fun b => if b = bucket0
                   then [("a", (1 : Nat)), ("b", 3)] else []⟩)).2 "b"
      = some 3
    ∧ (StorageHash.DelSubmap (fun _ => bucket0)
        [("a", 1), ("b", 2)]
        (⟨fun b => if b = bucket0
                   then [("a", (1 : Nat)), ("b", 3)] else []⟩ : StorageHash Nat)).1
      = 1 := by
  constructor
  · exact (c2_delsubmap_cas (fun _ => bucket0)
      [("a", 1), ("b", 2)]
      (⟨fun b => if b = bucket0
                 then [("a", (1 : Nat)), ("b", 3)] else []⟩)
      (by decide)).2.2.2 "b" 2 3 (by rfl) (by rfl) (by decide)
  · rw [(c2_delsubmap_cas (fun _ => bucket0)
      [("a", 1), ("b", 2)]
      (⟨fun b => if b = bucket0
                 then [("a", (1 : Nat)), ("b", 3)] else []⟩)
      (by decide)).2.2.1]
    rfl

/-- Witness for c10_error_atomicity: LPush onto a Bytes key fails with
WrongType and leaves the storage unchanged. -/
theorem c10_error_atomicity_witness :
    (Core.LPush (fun k => if k = "k" then some (NewItemBytes [1]) else none)
      0 "k" [[2]]).2
    = fun k => if k = "k" then some (NewItemBytes [1]) else none :=
  (c10_error_atomicity
    (fun k => if k = "k" then some (NewItemBytes [1]) else none)
    0 "k" "f" [] 0 0 0 [] [[2]]).2.2.2.2.2.2.2.2.2.2.1
    .wrongType (by rfl)
